import Mathlib

/-!
Shallow embedding of `src/hotspot/src/os_cpu/windows_x86/vm/atomic_windows_x86.hpp`.

The header defines the HotSpot `Atomic` operations for Windows/x86 in two
build modes selected by `#ifdef AMD64`:
* wide-register mode (`AMD64`): 8-byte and pointer-width load/store are plain
  aligned moves; add/xchg/cmpxchg delegate to the `os::atomic_*_func` backend
  entry points;
* narrow-register mode (`!AMD64`, 32-bit x86): add/inc/dec/xchg/cmpxchg are
  inline `lock`-prefixed instruction sequences, the 8-byte cmpxchg uses
  `lock cmpxchg8b` with the operands split into 4-byte halves, and 8-byte
  load/store go through the x87 FPU (`fild`/`fistp`).

An atomic slot of byte width W is modelled as a natural number below `2 ^ (8*W)`
(its raw little-endian bit pattern read as an unsigned integer).  Each source
function becomes a Lean function from operand values and the slot's prior
value to the pair `(returned value, new slot value)` (or just the new slot
value when the source returns `void`).  Machine registers are 32 or 64 bits
wide, so register arithmetic carries an explicit `% 2 ^ 32` (resp. `2 ^ 64`).
-/

namespace AtomicWindowsX86

/-- The three atomic slot widths the spec talks about, in bytes: 1, 4, 8. -/
inductive AtomicWidth : Type
| w1 : AtomicWidth
| w4 : AtomicWidth
| w8 : AtomicWidth
deriving DecidableEq, Repr

/-- Number of bit patterns of a slot of the given width: `2 ^ (8*W)`. -/
def widthBound : AtomicWidth → Nat
| AtomicWidth.w1 => 2 ^ 8
| AtomicWidth.w4 => 2 ^ 32
| AtomicWidth.w8 => 2 ^ 64

/-- The `cmpxchg_memory_order` argument taken by `Atomic::PlatformCmpxchg`;
HotSpot defines the two values below.  Every path in this header ignores it. -/
inductive cmpxchg_memory_order : Type
| memory_order_relaxed : cmpxchg_memory_order
| memory_order_conservative : cmpxchg_memory_order
deriving DecidableEq, Repr

namespace Narrow

/-!  Narrow-register mode: the `#else // !AMD64` branch of the header. -/

/-- `Atomic::PlatformAdd<4>::add_and_fetch` (narrow mode, lines 141-153):
`lock xadd dword ptr [edx], eax` atomically stores `dest + add_value` into the
slot and leaves the pre-addition value in `eax`; the trailing `add eax, ecx`
re-adds `add_value` in a register to produce the post-addition return value.
Registers are 32 bits, so both additions wrap modulo `2 ^ 32`.
Result: `(value returned in eax, new slot value)`. -/
def add_and_fetch4 (add_value dest : Nat) : Nat × Nat :=
  let eax := dest
  let slot := (dest + add_value) % 2 ^ 32
  (((eax + add_value) % 2 ^ 32), slot)

/-- `Atomic::inc` (narrow mode, lines 155-161): `lock add dword ptr [edx], 1`.
Returns the new slot value. -/
def inc (dest : Nat) : Nat := (dest + 1) % 2 ^ 32

/-- `Atomic::dec` (narrow mode, lines 171-177): `lock sub dword ptr [edx], 1`,
a 32-bit two's-complement subtraction of 1 from the slot. -/
def dec (dest : Nat) : Nat := (((dest : Int) - 1) % (2 ^ 32 : Int)).toNat

/-- `Atomic::xchg` (narrow mode, lines 187-194): `xchg eax, dword ptr [ecx]`
swaps `exchange_value` with the slot and returns the prior slot value.
Result: `(returned prior value, new slot value)`. -/
def xchg (exchange_value dest : Nat) : Nat × Nat :=
  (dest, exchange_value)

/-- `Atomic::xchg_ptr(intptr_t, volatile intptr_t*)` (narrow mode,
lines 196-198): casts to `jint` (the identity on 32-bit values) and calls
`xchg`. -/
def xchg_ptr (exchange_value dest : Nat) : Nat × Nat :=
  xchg exchange_value dest

/-- `Atomic::PlatformCmpxchg<1>::operator()` (narrow mode, lines 204-218):
`lock cmpxchg byte ptr [edx], cl` with `al = compare_value`.  If the slot
equals `al` the slot becomes `cl` and `al` is left holding the (equal) prior
value; otherwise `al` is loaded with the slot.  Either way the returned `al`
is the slot's prior value.  Result: `(returned value, new slot value)`. -/
def PlatformCmpxchg1 (exchange_value dest compare_value : Nat)
    (_order : cmpxchg_memory_order) : Nat × Nat :=
  if dest = compare_value then (dest, exchange_value) else (dest, dest)

/-- `Atomic::PlatformCmpxchg<4>::operator()` (narrow mode, lines 220-234):
`lock cmpxchg dword ptr [edx], ecx` with `eax = compare_value`; same shape as
the 1-byte case at dword width. -/
def PlatformCmpxchg4 (exchange_value dest compare_value : Nat)
    (_order : cmpxchg_memory_order) : Nat × Nat :=
  if dest = compare_value then (dest, exchange_value) else (dest, dest)

/-- `Atomic::PlatformCmpxchg<8>::operator()` (narrow mode, lines 236-259):
splits `exchange_value` and `compare_value` into low/high 4-byte halves
(`(jint)v` is the low dword, `*(((jint*)&v)+1)` the high dword on this
little-endian target), then executes `lock cmpxchg8b qword ptr [edi]` with
`edx:eax = cmp_hi:cmp_lo` and `ecx:ebx = ex_hi:ex_lo`.  The instruction
compares the 8-byte slot with `edx:eax`; on match it stores `ecx:ebx`, on
mismatch it loads the slot into `edx:eax`.  The returned `jlong` is `edx:eax`.
Result: `(returned value, new slot value)`. -/
def PlatformCmpxchg8 (exchange_value dest compare_value : Nat)
    (_order : cmpxchg_memory_order) : Nat × Nat :=
  let ex_lo := exchange_value % 2 ^ 32
  let ex_hi := exchange_value / 2 ^ 32 % 2 ^ 32
  let cmp_lo := compare_value % 2 ^ 32
  let cmp_hi := compare_value / 2 ^ 32 % 2 ^ 32
  if dest = cmp_hi * 2 ^ 32 + cmp_lo then
    (cmp_hi * 2 ^ 32 + cmp_lo, ex_hi * 2 ^ 32 + ex_lo)
  else
    (dest, dest)

/-- `fild qword ptr [eax]`: reads 8 bytes as a two's-complement signed 64-bit
integer and pushes it onto the x87 stack.  The x87 extended format has a
64-bit significand, so every `int64` value is held exactly. -/
def fildQword (bits : Nat) : Int :=
  if bits < 2 ^ 63 then (bits : Int) else (bits : Int) - 2 ^ 64

/-- `fistp qword ptr [eax]`: pops the x87 value and stores it to 8 bytes as a
two's-complement signed 64-bit integer; exact for values in `int64` range. -/
def fistpQword (x : Int) : Nat := (x % (2 ^ 64 : Int)).toNat

/-- `Atomic::load(const volatile jlong*)` (narrow mode, lines 261-271):
`fild` from the source slot, `fistp` into a caller-local temporary `dest`,
return the temporary.  The argument is the slot's bit pattern; the result the
value returned. -/
def load (src : Nat) : Nat := fistpQword (fildQword src)

/-- `Atomic::store(jlong, volatile jlong*)` (narrow mode, lines 273-281):
`fild` from the local holding `store_value`, `fistp` into the destination
slot.  The result is the slot's new bit pattern. -/
def store (store_value : Nat) : Nat := fistpQword (fildQword store_value)

/-- `Atomic::store(jlong, jlong*)` (narrow mode, lines 283-285): delegates to
the volatile overload. -/
def store_nv (store_value : Nat) : Nat := store store_value

end Narrow

/-!  Plain per-width stores defined outside the `#ifdef` (lines 45-58): each
is the assignment `*dest = store_value`.  The argument is the value (already
of the slot's width by typing); the result is the slot's new content. -/

/-- `Atomic::store(jbyte, jbyte*)` and the volatile overload (lines 45, 52). -/
def store_jbyte (store_value : Nat) : Nat := store_value

/-- `Atomic::store(jshort, jshort*)` and the volatile overload
(lines 46, 53). -/
def store_jshort (store_value : Nat) : Nat := store_value

/-- `Atomic::store(jint, jint*)` and the volatile overload (lines 47, 54). -/
def store_jint (store_value : Nat) : Nat := store_value

/-- Modelled from the spec: loads at widths 1 and 4 are not in this header
(only the `jlong` load is); spec section 4.1 says that for widths up to the
native register width `load(dest)` is a plain aligned read returning the
exact bit pattern present. -/
def load_plain (src : Nat) : Nat := src

namespace OS

/-!  The `os::atomic_*_func` backend capability provider.  These entry points
are declared in `runtime/os.hpp`, outside this repository slice; spec
sections 2 and 6 describe them.  Each is a synchronous, non-failing, total
atomic function over correctly sized inputs. -/

/-- Modelled from the spec: `os::atomic_add_func`, the backend's 4-byte
atomic add; spec section 4.2 says it performs the atomic addition and
returns the post-addition value.  Result: `(returned value, new slot
value)`; 32-bit two's-complement wraparound. -/
def atomic_add_func (add_value dest : Nat) : Nat × Nat :=
  (((dest + add_value) % 2 ^ 32), (dest + add_value) % 2 ^ 32)

/-- Modelled from the spec: `os::atomic_add_ptr_func`, the backend's
pointer-width (8-byte) atomic add returning the post-addition value. -/
def atomic_add_ptr_func (add_value dest : Nat) : Nat × Nat :=
  (((dest + add_value) % 2 ^ 64), (dest + add_value) % 2 ^ 64)

/-- Modelled from the spec: `os::atomic_xchg_func`, the backend's 4-byte
atomic exchange; spec section 4.3 says it replaces the slot with the new
value and returns the value immediately preceding the replacement. -/
def atomic_xchg_func (exchange_value dest : Nat) : Nat × Nat :=
  (dest, exchange_value)

/-- Modelled from the spec: `os::atomic_xchg_ptr_func`, the backend's
pointer-width atomic exchange returning the prior value. -/
def atomic_xchg_ptr_func (exchange_value dest : Nat) : Nat × Nat :=
  (dest, exchange_value)

/-- Modelled from the spec: `os::atomic_cmpxchg_byte_func`, the backend's
1-byte compare-exchange; spec section 4.4 says it compares the slot to the
comparand, stores the exchange value on equality, and always returns the
prior slot value. -/
def atomic_cmpxchg_byte_func (exchange_value dest compare_value : Nat) :
    Nat × Nat :=
  if dest = compare_value then (dest, exchange_value) else (dest, dest)

/-- Modelled from the spec: `os::atomic_cmpxchg_func`, the backend's 4-byte
compare-exchange with the same contract as the 1-byte one. -/
def atomic_cmpxchg_func (exchange_value dest compare_value : Nat) :
    Nat × Nat :=
  if dest = compare_value then (dest, exchange_value) else (dest, dest)

/-- Modelled from the spec: `os::atomic_cmpxchg_long_func`, the backend's
8-byte compare-exchange with the same contract. -/
def atomic_cmpxchg_long_func (exchange_value dest compare_value : Nat) :
    Nat × Nat :=
  if dest = compare_value then (dest, exchange_value) else (dest, dest)

end OS

namespace AMD64

/-!  Wide-register mode: the `#ifdef AMD64` branch of the header. -/

/-- `Atomic::store(jlong, jlong*)` and the volatile overload (wide mode,
lines 69-70): plain assignment. -/
def store_jlong (store_value : Nat) : Nat := store_value

/-- `Atomic::load(const volatile jlong*)` (wide mode, line 137): plain
read. -/
def load_jlong (src : Nat) : Nat := src

/-- `Atomic::PlatformAdd<4>::add_and_fetch` (wide mode, lines 72-76):
`add_using_helper<jint>(os::atomic_add_func, add_value, dest)` — one call
through the backend's 4-byte add. -/
def add_and_fetch4 (add_value dest : Nat) : Nat × Nat :=
  OS.atomic_add_func add_value dest

/-- `Atomic::PlatformAdd<8>::add_and_fetch` (wide mode, lines 78-82):
delegates to `os::atomic_add_ptr_func`. -/
def add_and_fetch8 (add_value dest : Nat) : Nat × Nat :=
  OS.atomic_add_ptr_func add_value dest

/-- `Atomic::inc(volatile jint*)` (wide mode, lines 84-86):
`(void)add(1, dest)`.  Returns the new slot value. -/
def inc (dest : Nat) : Nat := (add_and_fetch4 1 dest).2

/-- `Atomic::dec(volatile jint*)` (wide mode, lines 96-98):
`(void)add(-1, dest)`; the `jint` literal `-1` has bit pattern
`2 ^ 32 - 1`. -/
def dec (dest : Nat) : Nat := (add_and_fetch4 (2 ^ 32 - 1) dest).2

/-- `Atomic::xchg(jint, volatile jint*)` (wide mode, lines 108-110):
one call through `os::atomic_xchg_func`. -/
def xchg (exchange_value dest : Nat) : Nat × Nat :=
  OS.atomic_xchg_func exchange_value dest

/-- `Atomic::xchg_ptr(intptr_t, volatile intptr_t*)` (wide mode,
lines 112-114): one call through `os::atomic_xchg_ptr_func`. -/
def xchg_ptr (exchange_value dest : Nat) : Nat × Nat :=
  OS.atomic_xchg_ptr_func exchange_value dest

/-- `Atomic::xchg_ptr(void*, volatile void*)` (wide mode, lines 116-118):
reinterprets the pointer as `intptr_t`, calls `os::atomic_xchg_ptr_func`,
reinterprets the result back; the casts are the identity on the 64-bit bit
pattern. -/
def xchg_ptr_void (exchange_value dest : Nat) : Nat × Nat :=
  OS.atomic_xchg_ptr_func exchange_value dest

/-- `DEFINE_STUB_CMPXCHG(1, jbyte, os::atomic_cmpxchg_byte_func)` (wide
mode, lines 120-131): `Atomic::PlatformCmpxchg<1>::operator()` forwards to
the backend, ignoring `order`. -/
def PlatformCmpxchg1 (exchange_value dest compare_value : Nat)
    (_order : cmpxchg_memory_order) : Nat × Nat :=
  OS.atomic_cmpxchg_byte_func exchange_value dest compare_value

/-- `DEFINE_STUB_CMPXCHG(4, jint, os::atomic_cmpxchg_func)` (wide mode,
lines 120-129, 132). -/
def PlatformCmpxchg4 (exchange_value dest compare_value : Nat)
    (_order : cmpxchg_memory_order) : Nat × Nat :=
  OS.atomic_cmpxchg_func exchange_value dest compare_value

/-- `DEFINE_STUB_CMPXCHG(8, jlong, os::atomic_cmpxchg_long_func)` (wide
mode, lines 120-129, 133). -/
def PlatformCmpxchg8 (exchange_value dest compare_value : Nat)
    (_order : cmpxchg_memory_order) : Nat × Nat :=
  OS.atomic_cmpxchg_long_func exchange_value dest compare_value

end AMD64

/-- `STATIC_ASSERT(cond)`: compiles only when `cond` holds.  Modelled as an
`Option Unit` guard: `none` is compile-time rejection, so an operation built
behind it never produces a runtime value for a violating instantiation. -/
def STATIC_ASSERT (cond : Prop) [Decidable cond] : Option Unit :=
  if cond then some () else none

/-- `Atomic::PlatformAdd<4>::add_and_fetch<I, D>` (narrow mode) including
its `STATIC_ASSERT(4 == sizeof(I))` and `STATIC_ASSERT(4 == sizeof(D))`
(lines 144-145): the operand sizes are passed explicitly and the operation is
only produced when both asserts pass. -/
def add_and_fetch4_checked (sizeI sizeD : Nat) (add_value dest : Nat) :
    Option (Nat × Nat) :=
  (STATIC_ASSERT (4 = sizeI)).bind (fun _ =>
    (STATIC_ASSERT (4 = sizeD)).bind (fun _ =>
      some (Narrow.add_and_fetch4 add_value dest)))

/-- `Atomic::PlatformCmpxchg<1>::operator()<T>` (narrow mode) including its
`STATIC_ASSERT(1 == sizeof(T))` (line 210). -/
def cmpxchg1_checked (sizeT : Nat) (exchange_value dest compare_value : Nat)
    (order : cmpxchg_memory_order) : Option (Nat × Nat) :=
  (STATIC_ASSERT (1 = sizeT)).bind (fun _ =>
    some (Narrow.PlatformCmpxchg1 exchange_value dest compare_value order))

/-- `Atomic::PlatformCmpxchg<4>::operator()<T>` (narrow mode) including its
`STATIC_ASSERT(4 == sizeof(T))` (line 226). -/
def cmpxchg4_checked (sizeT : Nat) (exchange_value dest compare_value : Nat)
    (order : cmpxchg_memory_order) : Option (Nat × Nat) :=
  (STATIC_ASSERT (4 = sizeT)).bind (fun _ =>
    some (Narrow.PlatformCmpxchg4 exchange_value dest compare_value order))

/-- `Atomic::PlatformCmpxchg<8>::operator()<T>` (narrow mode) including its
`STATIC_ASSERT(8 == sizeof(T))` (line 242). -/
def cmpxchg8_checked (sizeT : Nat) (exchange_value dest compare_value : Nat)
    (order : cmpxchg_memory_order) : Option (Nat × Nat) :=
  (STATIC_ASSERT (8 = sizeT)).bind (fun _ =>
    some (Narrow.PlatformCmpxchg8 exchange_value dest compare_value order))

/-- `DEFINE_STUB_CMPXCHG(1, jbyte, os::atomic_cmpxchg_byte_func)` (wide
mode, lines 120-131) including its `STATIC_ASSERT(1 == sizeof(T))`
(line 127). -/
def stub_cmpxchg1_checked (sizeT : Nat)
    (exchange_value dest compare_value : Nat)
    (order : cmpxchg_memory_order) : Option (Nat × Nat) :=
  (STATIC_ASSERT (1 = sizeT)).bind (fun _ =>
    some (AMD64.PlatformCmpxchg1 exchange_value dest compare_value order))

/-- `DEFINE_STUB_CMPXCHG(4, jint, os::atomic_cmpxchg_func)` (wide mode,
lines 120-129, 132) including its `STATIC_ASSERT(4 == sizeof(T))`. -/
def stub_cmpxchg4_checked (sizeT : Nat)
    (exchange_value dest compare_value : Nat)
    (order : cmpxchg_memory_order) : Option (Nat × Nat) :=
  (STATIC_ASSERT (4 = sizeT)).bind (fun _ =>
    some (AMD64.PlatformCmpxchg4 exchange_value dest compare_value order))

/-- `DEFINE_STUB_CMPXCHG(8, jlong, os::atomic_cmpxchg_long_func)` (wide
mode, lines 120-129, 133) including its `STATIC_ASSERT(8 == sizeof(T))`. -/
def stub_cmpxchg8_checked (sizeT : Nat)
    (exchange_value dest compare_value : Nat)
    (order : cmpxchg_memory_order) : Option (Nat × Nat) :=
  (STATIC_ASSERT (8 = sizeT)).bind (fun _ =>
    some (AMD64.PlatformCmpxchg8 exchange_value dest compare_value order))

/-!  Byte-level memory model, used to state frame conditions: memory is a
map from byte addresses to byte values, and every operation above acts on
the W-byte little-endian slot at its destination address. -/

/-- Memory: byte address to byte value. -/
def Mem : Type := Nat → Nat

/-- Write one byte. -/
def writeByte (m : Mem) (addr b : Nat) : Mem :=
  fun a => if a = addr then b else m a

/-- Write a list of bytes at consecutive ascending addresses. -/
def writeBytes (m : Mem) (addr : Nat) : List Nat → Mem
| [] => m
| b :: bs => writeBytes (writeByte m addr b) (addr + 1) bs

/-- The `w` little-endian bytes of a value: least significant byte first. -/
def natBytes : Nat → Nat → List Nat
| 0, _ => []
| w + 1, v => v % 2 ^ 8 :: natBytes w (v / 2 ^ 8)

/-- Read the `w`-byte little-endian slot at `addr`. -/
def readSlot (m : Mem) : Nat → Nat → Nat
| _, 0 => 0
| addr, w + 1 => m addr + 2 ^ 8 * readSlot m (addr + 1) w

/-- The memory effect of a `w`-byte store of `v` at `dest`: exactly the
slot's bytes are written.  This is the memory-level form of every store
above (plain assignment, and `fistp` for the narrow-mode `jlong` store). -/
def storeMem (w v dest : Nat) (m : Mem) : Mem :=
  writeBytes m dest (natBytes w v)

/-- The memory effect of a read-modify-write instruction on the `w`-byte
slot at `dest`: read the slot, apply the value-level update, write the slot
back.  `lock xadd`, `lock add`, `lock sub`, `xchg` and `lock cmpxchg` all
have this shape. -/
def rmwMem (w : Nat) (f : Nat → Nat) (dest : Nat) (m : Mem) : Mem :=
  storeMem w (f (readSlot m dest w)) dest m

/-- Memory-level `Atomic::PlatformAdd<4>::add_and_fetch` (narrow mode). -/
def addMem (add_value dest : Nat) (m : Mem) : Mem :=
  rmwMem 4 (fun v => (Narrow.add_and_fetch4 add_value v).2) dest m

/-- Memory-level `Atomic::inc` (narrow mode). -/
def incMem (dest : Nat) (m : Mem) : Mem :=
  rmwMem 4 Narrow.inc dest m

/-- Memory-level `Atomic::dec` (narrow mode). -/
def decMem (dest : Nat) (m : Mem) : Mem :=
  rmwMem 4 Narrow.dec dest m

/-- Memory-level `Atomic::xchg` (narrow mode). -/
def xchgMem (exchange_value dest : Nat) (m : Mem) : Mem :=
  rmwMem 4 (fun v => (Narrow.xchg exchange_value v).2) dest m

/-- Memory-level `Atomic::PlatformCmpxchg<w>` (narrow mode), at width 1, 4
or 8 via the corresponding value-level function. -/
def cmpxchgMem (w : AtomicWidth) (exchange_value dest compare_value : Nat)
    (order : cmpxchg_memory_order) (m : Mem) : Mem :=
  match w with
  | AtomicWidth.w1 =>
    rmwMem 1 (fun v =>
      (Narrow.PlatformCmpxchg1 exchange_value v compare_value order).2) dest m
  | AtomicWidth.w4 =>
    rmwMem 4 (fun v =>
      (Narrow.PlatformCmpxchg4 exchange_value v compare_value order).2) dest m
  | AtomicWidth.w8 =>
    rmwMem 8 (fun v =>
      (Narrow.PlatformCmpxchg8 exchange_value v compare_value order).2) dest m

/-- Memory-level narrow-mode `jlong` store: the FPU round-trip of the value
is written into the 8-byte slot; nothing else is touched. -/
def storeLongMem (store_value dest : Nat) (m : Mem) : Mem :=
  storeMem 8 (Narrow.store store_value) dest m

/-- Memory-level narrow-mode `jlong` load: `fild` from the slot, `fistp`
into a caller-local temporary, whose value is the first component; the
memory is returned unchanged — the temporary is a local outside the modelled
heap. -/
def loadLongMem (src : Nat) (m : Mem) : Nat × Mem :=
  (Narrow.load (readSlot m src 8), m)

/-!  Interleaving model for concurrent `add(1, dest)` callers.  Each caller
performs exactly one memory-touching atomic step — the `lock xadd` — whose
effect on the slot is `Narrow.add_and_fetch4`; the trailing register
re-addition touches no memory.  An execution of N callers is therefore an
arbitrary sequence (one per caller, in any order) of these atomic slot
updates. -/

/-- Apply a sequence of narrow-mode atomic adds to a slot, one delta per
caller in the order the hardware serialized them. -/
def applyAdds (deltas : List Nat) (dest : Nat) : Nat :=
  deltas.foldl (fun v d => (Narrow.add_and_fetch4 d v).2) dest

/-- Width in bytes. -/
def byteWidth : AtomicWidth → Nat
| AtomicWidth.w1 => 1
| AtomicWidth.w4 => 4
| AtomicWidth.w8 => 8

/-- Width dispatch for the narrow-mode `Atomic::PlatformCmpxchg`
specializations: the build-time selection of the specialization for a given
byte width. -/
def cmpxchgNarrow : AtomicWidth → Nat → Nat → Nat → cmpxchg_memory_order →
    Nat × Nat
| AtomicWidth.w1 => Narrow.PlatformCmpxchg1
| AtomicWidth.w4 => Narrow.PlatformCmpxchg4
| AtomicWidth.w8 => Narrow.PlatformCmpxchg8

/-- Width dispatch for stores as a narrow-mode build sees them: plain
assignment at widths 1 and 4, the FPU-mediated path at width 8. -/
def storeAtWidth : AtomicWidth → Nat → Nat
| AtomicWidth.w1 => store_jbyte
| AtomicWidth.w4 => store_jint
| AtomicWidth.w8 => Narrow.store

/-- Width dispatch for loads as a narrow-mode build sees them: plain read at
widths 1 and 4 (see `load_plain`), the FPU-mediated path at width 8. -/
def loadAtWidth : AtomicWidth → Nat → Nat
| AtomicWidth.w1 => load_plain
| AtomicWidth.w4 => load_plain
| AtomicWidth.w8 => Narrow.load

/-- `jint` bit pattern of a signed integer literal, two's complement. -/
def jint_of_int (i : Int) : Nat := (i % (2 ^ 32 : Int)).toNat

end AtomicWindowsX86

namespace AtomicWindowsX86

/-!  Helper lemmas. -/

/-- Splitting a 64-bit value into dwords and reassembling is the identity. -/
lemma hi_lo_recombine (x : Nat) (hx : x < 2 ^ 64) :
    x / 2 ^ 32 % 2 ^ 32 * 2 ^ 32 + x % 2 ^ 32 = x := by
  omega

/-- The x87 round-trip `fild` then `fistp` reproduces any 64-bit bit
pattern exactly. -/
lemma fistp_fild (v : Nat) (hv : v < 2 ^ 64) :
    Narrow.fistpQword (Narrow.fildQword v) = v := by
  unfold Narrow.fistpQword Narrow.fildQword
  split <;> omega

/-- C1: for every width W in {1,4,8} and same-width operands,
`cmpxchg(exchange_value, dest, compare_value, order)` returns the value held
in the slot immediately before the call; if that prior value equals
`compare_value` the slot afterwards holds `exchange_value`, otherwise it is
unchanged — including the narrow-mode width-8 path that splits both operands
into high/low 4-byte halves for `lock cmpxchg8b`. -/
theorem cmpxchg_returns_prior_and_conditionally_stores
    (w : AtomicWidth) (exchange_value dest compare_value : Nat)
    (order : cmpxchg_memory_order)
    (hex : exchange_value < widthBound w)
    (hdest : dest < widthBound w)
    (hcmp : compare_value < widthBound w) :
    (cmpxchgNarrow w exchange_value dest compare_value order).1 = dest ∧
    (cmpxchgNarrow w exchange_value dest compare_value order).2 =
      if dest = compare_value then exchange_value else dest := by
  cases w with
  | w1 =>
    simp only [cmpxchgNarrow, Narrow.PlatformCmpxchg1]
    split <;> simp
  | w4 =>
    simp only [cmpxchgNarrow, Narrow.PlatformCmpxchg4]
    split <;> simp
  | w8 =>
    simp only [cmpxchgNarrow, Narrow.PlatformCmpxchg8, widthBound] at *
    rw [hi_lo_recombine compare_value hcmp,
        hi_lo_recombine exchange_value hex]
    split <;> simp_all

/-- Closed instance of C1: width 8, slot at 7, successful and failing
compares. -/
theorem cmpxchg_returns_prior_and_conditionally_stores_witness :
    (cmpxchgNarrow AtomicWidth.w8 5 7 7
        cmpxchg_memory_order.memory_order_conservative).1 = 7 ∧
    (cmpxchgNarrow AtomicWidth.w8 5 7 7
        cmpxchg_memory_order.memory_order_conservative).2 =
      if (7 : Nat) = 7 then 5 else 7 :=
  cmpxchg_returns_prior_and_conditionally_stores AtomicWidth.w8 5 7 7
    cmpxchg_memory_order.memory_order_conservative
    (by decide) (by decide) (by decide)

/-- C2: for every width W in {1,4,8} and W-byte value v, `store(v, dest)`
followed by `load(dest)` yields exactly v — in particular the narrow-mode
8-byte path through the FPU (`fild`/`fistp`) reproduces the stored 64-bit
bit pattern. -/
theorem store_load_roundtrip (w : AtomicWidth) (v : Nat)
    (hv : v < widthBound w) :
    loadAtWidth w (storeAtWidth w v) = v := by
  cases w with
  | w1 => rfl
  | w4 => rfl
  | w8 =>
    simp only [loadAtWidth, storeAtWidth, Narrow.load, Narrow.store,
      widthBound] at *
    rw [fistp_fild v hv, fistp_fild v hv]

/-- Closed instance of C2 (Scenario A): the narrow-mode FPU path reproduces
`0x1122334455667788` bit-exact. -/
theorem store_load_roundtrip_witness :
    loadAtWidth AtomicWidth.w8 (storeAtWidth AtomicWidth.w8 0x1122334455667788)
      = 0x1122334455667788 :=
  store_load_roundtrip AtomicWidth.w8 0x1122334455667788 (by decide)

/-- C3: after `dest = v0; add(d, dest)`, the call returns `(v0 + d) mod
2^(8W)` and the slot holds the same value, at every supported add width: the
narrow-mode 4-byte path (locked fetch-and-add returning the pre-addition
value, then a register-only re-addition of d) and the wide-mode 4- and
8-byte delegating paths. -/
theorem add_and_fetch_post (v0 d : Nat) :
    Narrow.add_and_fetch4 d v0 = ((v0 + d) % 2 ^ 32, (v0 + d) % 2 ^ 32) ∧
    AMD64.add_and_fetch4 d v0 = ((v0 + d) % 2 ^ 32, (v0 + d) % 2 ^ 32) ∧
    AMD64.add_and_fetch8 d v0 = ((v0 + d) % 2 ^ 64, (v0 + d) % 2 ^ 64) :=
  ⟨rfl, rfl, rfl⟩

/-- C4: `inc(dest)` leaves the slot exactly as `add(1, dest)` with the
result discarded, and `dec(dest)` exactly as `add(-1, dest)` (the `jint`
`-1` being the bit pattern `jint_of_int (-1)`), in both execution modes. -/
theorem inc_dec_equiv_add (v : Nat) :
    Narrow.inc v = (Narrow.add_and_fetch4 (jint_of_int 1) v).2 ∧
    Narrow.dec v = (Narrow.add_and_fetch4 (jint_of_int (-1)) v).2 ∧
    AMD64.inc v = (AMD64.add_and_fetch4 (jint_of_int 1) v).2 ∧
    AMD64.dec v = (AMD64.add_and_fetch4 (jint_of_int (-1)) v).2 := by
  refine ⟨?_, ?_, ?_, ?_⟩
  · simp [Narrow.inc, Narrow.add_and_fetch4, jint_of_int]
  · simp only [Narrow.dec, Narrow.add_and_fetch4, jint_of_int]
    omega
  · simp [AMD64.inc, AMD64.add_and_fetch4, OS.atomic_add_func, jint_of_int]
  · simp only [AMD64.dec, AMD64.add_and_fetch4, OS.atomic_add_func,
      jint_of_int]
    omega

/-- C5: `xchg(n, dest)` and the pointer overloads `xchg_ptr` return exactly
the value held in the slot immediately before the call and leave the slot
holding n, in both execution modes. -/
theorem xchg_returns_prior (n v : Nat) :
    Narrow.xchg n v = (v, n) ∧
    Narrow.xchg_ptr n v = (v, n) ∧
    AMD64.xchg n v = (v, n) ∧
    AMD64.xchg_ptr n v = (v, n) ∧
    AMD64.xchg_ptr_void n v = (v, n) :=
  ⟨rfl, rfl, rfl, rfl, rfl⟩

/-- C6: at every width and on every path, `cmpxchg` returns the same value
and leaves the same slot state whatever ordering argument is passed: the
`order` parameter is accepted but has no observable effect. -/
theorem cmpxchg_order_irrelevant
    (exchange_value dest compare_value : Nat)
    (o1 o2 : cmpxchg_memory_order) :
    Narrow.PlatformCmpxchg1 exchange_value dest compare_value o1 =
      Narrow.PlatformCmpxchg1 exchange_value dest compare_value o2 ∧
    Narrow.PlatformCmpxchg4 exchange_value dest compare_value o1 =
      Narrow.PlatformCmpxchg4 exchange_value dest compare_value o2 ∧
    Narrow.PlatformCmpxchg8 exchange_value dest compare_value o1 =
      Narrow.PlatformCmpxchg8 exchange_value dest compare_value o2 ∧
    AMD64.PlatformCmpxchg1 exchange_value dest compare_value o1 =
      AMD64.PlatformCmpxchg1 exchange_value dest compare_value o2 ∧
    AMD64.PlatformCmpxchg4 exchange_value dest compare_value o1 =
      AMD64.PlatformCmpxchg4 exchange_value dest compare_value o2 ∧
    AMD64.PlatformCmpxchg8 exchange_value dest compare_value o1 =
      AMD64.PlatformCmpxchg8 exchange_value dest compare_value o2 :=
  ⟨rfl, rfl, rfl, rfl, rfl, rfl⟩

/-- A computation guarded by one `STATIC_ASSERT` produces a value exactly
when the asserted condition holds. -/
lemma bind_assert1_isSome {α : Type} (c : Prop) [Decidable c] (x : α) :
    ((STATIC_ASSERT c).bind (fun _ => some x)).isSome ↔ c := by
  unfold STATIC_ASSERT
  by_cases hc : c <;> simp [hc]

/-- A computation guarded by two `STATIC_ASSERT`s produces a value exactly
when both asserted conditions hold. -/
lemma bind_assert2_isSome {α : Type} (c d : Prop) [Decidable c] [Decidable d]
    (x : α) :
    ((STATIC_ASSERT c).bind (fun _ =>
      (STATIC_ASSERT d).bind (fun _ => some x))).isSome ↔ (c ∧ d) := by
  unfold STATIC_ASSERT
  by_cases hc : c <;> by_cases hd : d <;> simp [hc, hd]

/-- C7: every `add_and_fetch` and `cmpxchg` specialization at byte width W
produces a value exactly when the operand sizes equal W; an instantiation at
any other size is stopped by the `STATIC_ASSERT` (modelled as `none`, the
compile-time rejection), never surfaced as a runtime fault. -/
theorem width_static_assert (sizeI sizeD sizeT : Nat)
    (add_value exchange_value dest compare_value : Nat)
    (order : cmpxchg_memory_order) :
    ((add_and_fetch4_checked sizeI sizeD add_value dest).isSome ↔
      (4 = sizeI ∧ 4 = sizeD)) ∧
    ((cmpxchg1_checked sizeT exchange_value dest compare_value order).isSome
      ↔ 1 = sizeT) ∧
    ((cmpxchg4_checked sizeT exchange_value dest compare_value order).isSome
      ↔ 4 = sizeT) ∧
    ((cmpxchg8_checked sizeT exchange_value dest compare_value order).isSome
      ↔ 8 = sizeT) ∧
    ((stub_cmpxchg1_checked sizeT exchange_value dest compare_value
        order).isSome ↔ 1 = sizeT) ∧
    ((stub_cmpxchg4_checked sizeT exchange_value dest compare_value
        order).isSome ↔ 4 = sizeT) ∧
    ((stub_cmpxchg8_checked sizeT exchange_value dest compare_value
        order).isSome ↔ 8 = sizeT) := by
  refine ⟨?_, ?_, ?_, ?_, ?_, ?_, ?_⟩
  · exact bind_assert2_isSome (4 = sizeI) (4 = sizeD) _
  · exact bind_assert1_isSome (1 = sizeT) _
  · exact bind_assert1_isSome (4 = sizeT) _
  · exact bind_assert1_isSome (8 = sizeT) _
  · exact bind_assert1_isSome (1 = sizeT) _
  · exact bind_assert1_isSome (4 = sizeT) _
  · exact bind_assert1_isSome (8 = sizeT) _

/-- Every well-started sequence of unit adds advances the slot by its length
modulo `2 ^ 32`. -/
lemma applyAdds_ones (deltas : List Nat) (v : Nat)
    (h1 : ∀ d ∈ deltas, d = 1) (hv : v < 2 ^ 32) :
    applyAdds deltas v = (v + deltas.length) % 2 ^ 32 := by
  induction deltas generalizing v with
  | nil => simpa [applyAdds] using (Nat.mod_eq_of_lt hv).symm
  | cons d rest ih =>
    have hd : d = 1 := h1 d (List.mem_cons_self d rest)
    have hrest : ∀ x ∈ rest, x = 1 := fun x hx => h1 x (List.mem_cons_of_mem d hx)
    have step : applyAdds (d :: rest) v =
        applyAdds rest ((v + d) % 2 ^ 32) := rfl
    rw [step, ih ((v + d) % 2 ^ 32) hrest (Nat.mod_lt _ (by norm_num))]
    subst hd
    simp [List.length_cons]
    omega

/-- Counterexample to C8 as stated: with `N = 2 ^ 32` callers each
performing `add(1, dest)` on a slot initialized to 0, the 32-bit slot wraps
and ends at 0, not at N. -/
theorem concurrent_adds_claim_counterexample :
    applyAdds (List.replicate (2 ^ 32) 1) 0 ≠ 2 ^ 32 := by
  rw [applyAdds_ones (List.replicate (2 ^ 32) 1) 0
    (fun d hd => (List.eq_of_mem_replicate hd)) (by norm_num),
    List.length_replicate]
  decide

/-- C8 (amended): for any interleaving — any hardware serialization order of
the N single locked `xadd` steps, one per caller — of N callers each
performing `add(1, dest)` on a slot initialized to 0, the final slot value
is N modulo `2 ^ 32`, hence exactly N whenever N < 2 ^ 32; and every prefix
of the serialization leaves a value some total order of the operations
produces (no torn value). -/
theorem concurrent_adds_final_value (deltas : List Nat)
    (h1 : ∀ d ∈ deltas, d = 1) :
    applyAdds deltas 0 = deltas.length % 2 ^ 32 ∧
    (deltas.length < 2 ^ 32 → applyAdds deltas 0 = deltas.length) ∧
    (∀ front back : List Nat, deltas = front ++ back →
      applyAdds front 0 = front.length % 2 ^ 32) := by
  refine ⟨?_, ?_, ?_⟩
  · simpa using applyAdds_ones deltas 0 h1 (by norm_num)
  · intro hlen
    have h := applyAdds_ones deltas 0 h1 (by norm_num)
    omega
  · intro front back hsplit
    have hfront : ∀ d ∈ front, d = 1 := by
      intro d hd
      exact h1 d (by rw [hsplit]; exact List.mem_append_left back hd)
    simpa using applyAdds_ones front 0 hfront (by norm_num)

/-- Closed instance of the amended C8: three callers leave the slot at 3. -/
theorem concurrent_adds_final_value_witness :
    applyAdds [1, 1, 1] 0 = [1, 1, 1].length % 2 ^ 32 ∧
    ([1, 1, 1].length < 2 ^ 32 → applyAdds [1, 1, 1] 0 = [1, 1, 1].length) ∧
    (∀ front back : List Nat, [1, 1, 1] = front ++ back →
      applyAdds front 0 = front.length % 2 ^ 32) :=
  concurrent_adds_final_value [1, 1, 1] (by decide)

/-- Writing a byte list at `addr` leaves every address outside
`[addr, addr + length)` unchanged. -/
lemma writeBytes_frame (bs : List Nat) (m : Mem) (addr a : Nat)
    (h : a < addr ∨ addr + bs.length ≤ a) :
    writeBytes m addr bs a = m a := by
  induction bs generalizing m addr with
  | nil => rfl
  | cons b rest ih =>
    have step : writeBytes m addr (b :: rest) =
        writeBytes (writeByte m addr b) (addr + 1) rest := rfl
    rw [step, ih (writeByte m addr b) (addr + 1)
      (by simp only [List.length_cons] at h; omega)]
    unfold writeByte
    have hne : ¬a = addr := by simp only [List.length_cons] at h; omega
    simp [hne]

/-- `natBytes` produces exactly `w` bytes. -/
lemma natBytes_length (w v : Nat) : (natBytes w v).length = w := by
  induction w generalizing v with
  | zero => rfl
  | succ w ih => simp [natBytes, ih]

/-- A `w`-byte store leaves every address outside its slot unchanged. -/
lemma storeMem_frame (w v dest : Nat) (m : Mem) (a : Nat)
    (h : a < dest ∨ dest + w ≤ a) :
    storeMem w v dest m a = m a := by
  unfold storeMem
  exact writeBytes_frame _ m dest a (by rw [natBytes_length]; exact h)

/-- A `w`-byte read-modify-write leaves every address outside its slot
unchanged. -/
lemma rmwMem_frame (w : Nat) (f : Nat → Nat) (dest : Nat) (m : Mem)
    (a : Nat) (h : a < dest ∨ dest + w ≤ a) :
    rmwMem w f dest m a = m a := by
  unfold rmwMem
  exact storeMem_frame w _ dest m a h

/-- Reading back a just-stored value of the slot's width reproduces it. -/
lemma readSlot_storeMem (w v dest : Nat) (m : Mem)
    (hv : v < 2 ^ (8 * w)) :
    readSlot (storeMem w v dest m) dest w = v := by
  induction w generalizing v dest m with
  | zero =>
    have : v = 0 := by simpa using hv
    simp [readSlot, this]
  | succ w ih =>
    have hdiv : v / 2 ^ 8 < 2 ^ (8 * w) := by
      rw [Nat.div_lt_iff_lt_mul (by norm_num : 0 < 2 ^ 8)]
      calc v < 2 ^ (8 * (w + 1)) := hv
      _ = 2 ^ (8 * w) * 2 ^ 8 := by rw [← pow_add]; ring_nf
    have hunfold : storeMem (w + 1) v dest m =
        storeMem w (v / 2 ^ 8) (dest + 1)
          (writeByte m dest (v % 2 ^ 8)) := rfl
    have hread : readSlot (storeMem (w + 1) v dest m) dest (w + 1) =
        storeMem (w + 1) v dest m dest +
          2 ^ 8 * readSlot (storeMem (w + 1) v dest m) (dest + 1) w := rfl
    rw [hread]
    have hbyte : storeMem (w + 1) v dest m dest = v % 2 ^ 8 := by
      rw [hunfold, storeMem_frame w (v / 2 ^ 8) (dest + 1) _ dest
        (Or.inl (Nat.lt_succ_self dest))]
      simp [writeByte]
    have hrest : readSlot (storeMem (w + 1) v dest m) (dest + 1) w =
        v / 2 ^ 8 := by
      rw [hunfold]
      exact ih (v / 2 ^ 8) (dest + 1) _ hdiv
    rw [hbyte, hrest]
    omega

/-- C9: every operation modifies at most its own W-byte slot: `load`
modifies no memory at all (the narrow-mode 8-byte FPU path writes only a
caller-local temporary, which lives outside the modelled heap), and
store/add/inc/dec/xchg/cmpxchg leave every address outside the W-byte slot
at `dest` unchanged, each operation under only its own width's range
condition. -/
theorem ops_modify_only_own_slot
    (m : Mem) (a dest v d ex cmp : Nat) (w : AtomicWidth)
    (order : cmpxchg_memory_order) :
    (loadLongMem dest m).2 = m ∧
    ((a < dest ∨ dest + 1 ≤ a) →
      storeMem 1 (store_jbyte v) dest m a = m a) ∧
    ((a < dest ∨ dest + 2 ≤ a) →
      storeMem 2 (store_jshort v) dest m a = m a) ∧
    ((a < dest ∨ dest + 4 ≤ a) →
      storeMem 4 (store_jint v) dest m a = m a) ∧
    ((a < dest ∨ dest + 8 ≤ a) → storeLongMem v dest m a = m a) ∧
    ((a < dest ∨ dest + 4 ≤ a) → addMem d dest m a = m a) ∧
    ((a < dest ∨ dest + 4 ≤ a) → incMem dest m a = m a) ∧
    ((a < dest ∨ dest + 4 ≤ a) → decMem dest m a = m a) ∧
    ((a < dest ∨ dest + 4 ≤ a) → xchgMem ex dest m a = m a) ∧
    ((a < dest ∨ dest + byteWidth w ≤ a) →
      cmpxchgMem w ex dest cmp order m a = m a) := by
  refine ⟨rfl, ?_, ?_, ?_, ?_, ?_, ?_, ?_, ?_, ?_⟩
  · exact fun h => storeMem_frame 1 _ dest m a h
  · exact fun h => storeMem_frame 2 _ dest m a h
  · exact fun h => storeMem_frame 4 _ dest m a h
  · exact fun h => storeMem_frame 8 _ dest m a h
  · exact fun h => rmwMem_frame 4 _ dest m a h
  · exact fun h => rmwMem_frame 4 _ dest m a h
  · exact fun h => rmwMem_frame 4 _ dest m a h
  · exact fun h => rmwMem_frame 4 _ dest m a h
  · intro h
    cases w with
    | w1 =>
      simp only [cmpxchgMem]
      exact rmwMem_frame 1 _ dest m a (by simpa [byteWidth] using h)
    | w4 =>
      simp only [cmpxchgMem]
      exact rmwMem_frame 4 _ dest m a (by simpa [byteWidth] using h)
    | w8 =>
      simp only [cmpxchgMem]
      exact rmwMem_frame 8 _ dest m a (by simpa [byteWidth] using h)

/-- Closed instance of C9: address 9 lies just past the 1-byte slot at 8,
so the byte store leaves it unchanged; address 3 lies below the slot and is
left unchanged by every operation. -/
theorem ops_modify_only_own_slot_witness :
    ((loadLongMem 8 (fun _ => 100)).2 = (fun _ => 100)) ∧
    storeMem 1 (store_jbyte 5) 8 (fun _ => 100) 9 = (fun _ => (100:Nat)) 9 ∧
    storeMem 2 (store_jshort 5) 8 (fun _ => 100) 3 = (fun _ => (100:Nat)) 3 ∧
    storeMem 4 (store_jint 5) 8 (fun _ => 100) 3 = (fun _ => (100:Nat)) 3 ∧
    storeLongMem 5 8 (fun _ => 100) 3 = (fun _ => (100:Nat)) 3 ∧
    addMem 6 8 (fun _ => 100) 3 = (fun _ => (100:Nat)) 3 ∧
    incMem 8 (fun _ => 100) 3 = (fun _ => (100:Nat)) 3 ∧
    decMem 8 (fun _ => 100) 3 = (fun _ => (100:Nat)) 3 ∧
    xchgMem 7 8 (fun _ => 100) 3 = (fun _ => (100:Nat)) 3 ∧
    cmpxchgMem AtomicWidth.w8 7 8 9
      cmpxchg_memory_order.memory_order_relaxed (fun _ => 100) 3 =
      (fun _ => (100:Nat)) 3 := by
  have h3 := ops_modify_only_own_slot (fun _ => 100) 3 8 5 6 7 9
    AtomicWidth.w8 cmpxchg_memory_order.memory_order_relaxed
  have h9 := ops_modify_only_own_slot (fun _ => 100) 9 8 5 6 7 9
    AtomicWidth.w8 cmpxchg_memory_order.memory_order_relaxed
  exact ⟨h3.1, h9.2.1 (by decide), h3.2.2.1 (by decide),
    h3.2.2.2.1 (by decide), h3.2.2.2.2.1 (by decide),
    h3.2.2.2.2.2.1 (by decide), h3.2.2.2.2.2.2.1 (by decide),
    h3.2.2.2.2.2.2.2.1 (by decide), h3.2.2.2.2.2.2.2.2.1 (by decide),
    h3.2.2.2.2.2.2.2.2.2 (by decide)⟩

/-- C10: a 2-byte (`jshort`) store exists at the public interface (lines 46
and 53 of the header, outside both `#ifdef` branches): it is the plain
aligned assignment `*dest = store_value`, after which the 2-byte slot holds
exactly the stored value. -/
theorem store_jshort_writes_slot (v dest : Nat) (m : Mem)
    (hv : v < 2 ^ 16) :
    store_jshort v = v ∧
    readSlot (storeMem 2 (store_jshort v) dest m) dest 2 = v := by
  refine ⟨rfl, ?_⟩
  exact readSlot_storeMem 2 (store_jshort v) dest m
    (by simpa [store_jshort] using hv)

/-- Closed instance of C10: storing `0xABCD` into a 2-byte slot leaves the
slot reading back `0xABCD`. -/
theorem store_jshort_writes_slot_witness :
    store_jshort 0xABCD = 0xABCD ∧
    readSlot (storeMem 2 (store_jshort 0xABCD) 0 (fun _ => 0)) 0 2
      = 0xABCD :=
  store_jshort_writes_slot 0xABCD 0 (fun _ => 0) (by decide)

end AtomicWindowsX86
